import Mathlib

/-!
# Verification of the torchtuples core (`pyth/tuple.py`, `pyth/base.py`)

A shallow embedding of the repository's nested-tuple utility and training
loop, with theorems settling the frozen specification claims.

Python values manipulated by `tuple.py` are modelled by the type `Obj α`:
* `Obj.leaf a` — an opaque non-sequence value (array, tensor, int, ...);
* `Obj.tup xs` — an instance of the `Tuple` class (the only member of
  `_CONTAINERS`);
* `Obj.pylist xs` — a plain python `list` or `tuple` (both behave
  identically in every operation of `tuple.py`: neither is in
  `_CONTAINERS`, both are converted by `tuplefy`'s default
  `types=(list, tuple)`, and both are iterable).

`ObjList` is the spine of children; it is a mutual inductive so that all
operations are structural recursions that the kernel can evaluate.

Fallible python code (a `raise` statement, or a library call that raises)
is embedded with `Except Err`.
-/

mutual
inductive Obj (α : Type) where
  | leaf : α → Obj α
  | tup : ObjList α → Obj α
  | pylist : ObjList α → Obj α
  deriving DecidableEq
inductive ObjList (α : Type) where
  | nil : ObjList α
  | cons : Obj α → ObjList α → ObjList α
  deriving DecidableEq
end

/-- The python exceptions raised by the embedded code.  `valueError` and
`runtimeError` carry the message of the corresponding `raise` statement
(interpolated tails of f-strings are omitted). -/
inductive Err where
  | valueError (msg : String)
  | runtimeError (msg : String)
  | notImplementedError
  | stopIteration
  | indexError
  | attributeError
  | typeError
  deriving DecidableEq

instance {ε α : Type} [DecidableEq ε] [DecidableEq α] : DecidableEq (Except ε α) :=
  fun x y =>
    match x, y with
    | .ok a, .ok b =>
      decidable_of_iff (a = b) ⟨fun h => by rw [h], fun h => by cases h; rfl⟩
    | .error e, .error f =>
      decidable_of_iff (e = f) ⟨fun h => by rw [h], fun h => by cases h; rfl⟩
    | .ok _, .error _ => isFalse (fun h => by cases h)
    | .error _, .ok _ => isFalse (fun h => by cases h)

namespace ObjList

def append {α : Type} : ObjList α → ObjList α → ObjList α
  | .nil, ys => ys
  | .cons x xs, ys => .cons x (append xs ys)

def toList {α : Type} : ObjList α → List (Obj α)
  | .nil => []
  | .cons x xs => x :: toList xs

def ofList {α : Type} : List (Obj α) → ObjList α
  | [] => .nil
  | x :: xs => .cons x (ofList xs)

def length {α : Type} : ObjList α → Nat
  | .nil => 0
  | .cons _ xs => length xs + 1

end ObjList

/-- Structural induction on the child spine alone (the mutual recursor
`ObjList.rec` is inconvenient for the `induction` tactic). -/
theorem ObjList.spineInduction {α : Type} {motive : ObjList α → Prop}
    (nil : motive .nil) (cons : ∀ x xs, motive xs → motive (.cons x xs)) :
    ∀ xs, motive xs
  | .nil => nil
  | .cons x xs => cons x xs (ObjList.spineInduction nil cons xs)

mutual
/-- Structural induction on `Obj` with membership hypotheses for the
children of `tup` and `pylist` nodes. -/
theorem Obj.inductionOn {α : Type} {P : Obj α → Prop}
    (leaf : ∀ a, P (.leaf a))
    (tup : ∀ xs, (∀ x ∈ xs.toList, P x) → P (.tup xs))
    (pylist : ∀ xs, (∀ x ∈ xs.toList, P x) → P (.pylist xs)) :
    ∀ x, P x
  | .leaf a => leaf a
  | .tup xs => tup xs (ObjList.memInduction leaf tup pylist xs)
  | .pylist xs => pylist xs (ObjList.memInduction leaf tup pylist xs)
theorem ObjList.memInduction {α : Type} {P : Obj α → Prop}
    (leaf : ∀ a, P (.leaf a))
    (tup : ∀ xs, (∀ x ∈ xs.toList, P x) → P (.tup xs))
    (pylist : ∀ xs, (∀ x ∈ xs.toList, P x) → P (.pylist xs)) :
    ∀ xs : ObjList α, ∀ x ∈ xs.toList, P x
  | .cons y ys => by
    intro x hx
    rcases (by simpa [ObjList.toList] using hx : x = y ∨ x ∈ ys.toList) with h | h
    · exact h ▸ Obj.inductionOn leaf tup pylist y
    · exact ObjList.memInduction leaf tup pylist ys x h
  | .nil => by intro x hx; simp [ObjList.toList] at hx
end

/-- Iterating a python value with `for sub in data` / `zip(...)`.
`Tuple` and `list`/`tuple` values iterate over their elements.  An opaque
leaf is not given an iteration in this model (array leaves do iterate in
python, over rows, but no code path settled here iterates a leaf). -/
def iterElems {α : Type} : Obj α → Option (List (Obj α))
  | .tup xs => some xs.toList
  | .pylist xs => some xs.toList
  | .leaf _ => none

/-- Total variant of `iterElems`; the `[]` fallback for a leaf is only ever
reached in code paths that python would abort with a `TypeError`, and is
unreachable under the topology preconditions of the callers. -/
def iterElemsD {α : Type} (x : Obj α) : List (Obj α) :=
  (iterElems x).getD []

/-! ## `apply_tuple` (tuple.py lines 101-124)

`wrapper` recurses into values whose type is in `_CONTAINERS = (Tuple,)`
and applies `func` to anything else (a leaf or a plain list/tuple). -/

mutual
def apply_tupleF {α β : Type} (func : Obj α → Obj β) : Obj α → Obj β
  | .tup xs => .tup (applyL func xs)
  | data => func data
def applyL {α β : Type} (func : Obj α → Obj β) : ObjList α → ObjList β
  | .nil => .nil
  | .cons x xs => .cons (apply_tupleF func x) (applyL func xs)
end

/-! ## `tuple_levels` (tuple.py lines 252-266) -/

mutual
def tuple_levelsF {α : Type} : Obj α → Int → Obj Int
  | .tup xs, level => .tup (tupleLevelsL xs level)
  | _, level => .leaf level
def tupleLevelsL {α : Type} : ObjList α → Int → ObjList Int
  | .nil, _ => .nil
  | .cons x xs, level => .cons (tuple_levelsF x (level + 1)) (tupleLevelsL xs level)
end

/-- Method `Tuple.to_levels` (tuple.py lines 50-51): `tuple_levels(self)` with the
default start level `-1`. -/
def to_levelsF {α : Type} (data : Obj α) : Obj Int :=
  tuple_levelsF data (-1)

/-! ## `all_equal` (tuple.py lines 160-164)

`data.apply_nrec(lambda x: x == data[0]).all()`.  `apply_nrec` and `all`
are `Tuple` methods, so a non-`Tuple` argument raises `AttributeError`.
The comparison `x == data[0]` is python structural equality, which on the
homogeneous values compared here coincides with decidable equality of
`Obj`. -/

def all_equalF {α : Type} [DecidableEq α] : Obj α → Except Err Bool
  | .tup .nil => .ok true
  | .tup (.cons x xs) => .ok ((ObjList.cons x xs).toList.all (fun y => y == x))
  | _ => .error .attributeError

/-! ## `reduce_tuple` (tuple.py lines 126-158) -/

mutual
/-- Function `reduce_rec` (tuple.py lines 140-143).  At a `Tuple` accumulator it
recurses over `zip(acc_val, val)` (python `zip` truncates at the shorter
argument); otherwise it applies `func`. -/
def reduce_recF {α : Type} (func : Obj α → Obj α → Obj α) : Obj α → Obj α → Obj α
  | .tup xs, val => .tup (reduceRecZip func xs (iterElemsD val))
  | acc_val, val => func acc_val val
def reduceRecZip {α : Type} (func : Obj α → Obj α → Obj α) :
    ObjList α → List (Obj α) → ObjList α
  | .nil, _ => .nil
  | .cons _ _, [] => .nil
  | .cons x xs, v :: vs => .cons (reduce_recF func x v) (reduceRecZip func xs vs)
end

/-- The `for val in iterable: acc_val = reduce_rec(acc_val, val)` loop. -/
def foldRR {α : Type} (func : Obj α → Obj α → Obj α) : Obj α → ObjList α → Obj α
  | acc, .nil => acc
  | acc, .cons v vs => foldRR func (reduce_recF func acc v) vs

/-- The `wrapper` of `reduce_tuple(func, init_func)` (tuple.py lines 145-157):
first the topology validation (`raise ValueError` when
`data.to_levels().all_equal()` is false), then `iterable = iter(data)`;
with no `init_func` the first element is consumed from the iterator as the
seed (`StopIteration` on an empty tuple), with an `init_func` the seed is
`data[0].apply(init_func)` (`IndexError` on an empty tuple) and the
iterator still yields every element, the first included. -/
def reduce_tupleF {α : Type} [DecidableEq α] (func : Obj α → Obj α → Obj α)
    (init_func : Option (Obj α → Obj α)) (data : Obj α) : Except Err (Obj α) :=
  match data with
  | .tup cs =>
    match all_equalF (to_levelsF (Obj.tup cs)) with
    | .ok true =>
      match init_func, cs with
      | none, .nil => .error .stopIteration
      | none, .cons h t => .ok (foldRR func h t)
      | some _, .nil => .error .indexError
      | some g, .cons h t =>
        -- `data[0].apply(init_func)` is a *method* call on the first
        -- element: a non-`Tuple` first element (a leaf or a plain list)
        -- has no `.apply` attribute and raises `AttributeError`.
        match h with
        | .tup hs =>
          .ok (foldRR func (apply_tupleF g (Obj.tup hs)) (.cons (Obj.tup hs) t))
        | _ => .error .attributeError
    | .ok false =>
      .error (.valueError "Topology is not the same for all elements in data, and can not be reduced")
    | .error e => .error e
  | _ => .error .attributeError

/-! ## `agg_list` (tuple.py lines 166-176) -/

/-- Function `append_func` (tuple.py lines 173-175): `list_.append(val); return list_`.
On a non-list accumulator python would raise `AttributeError`; that case is
unreachable from `agg_list` (the accumulator is built from `init_func`,
which places a fresh list at every non-container position). -/
def append_funcF {α : Type} : Obj α → Obj α → Obj α
  | .pylist l, val => .pylist (l.append (.cons val .nil))
  | list_, _ => list_

/-- The `init_func = lambda _: list()` of `agg_list` (tuple.py line 172). -/
def initListF {α : Type} : Obj α → Obj α := fun _ => .pylist .nil

def agg_listF {α : Type} [DecidableEq α] (data : Obj α) : Except Err (Obj α) :=
  reduce_tupleF append_funcF (some initListF) data

/-! ## `is_flat` (tuple.py lines 237-240) -/

def notContainer {α : Type} : Obj α → Bool
  | .tup _ => false
  | _ => true

def allNotContainer {α : Type} : ObjList α → Bool
  | .nil => true
  | .cons x xs => notContainer x && allNotContainer xs

def is_flatF {α : Type} : Obj α → Bool
  | .tup xs => allNotContainer xs
  | _ => true

/-! ## `tuplefy` (tuple.py lines 302-308)

With the default `types=(list, tuple)` (the recursive calls always use the
default), the check `type(data) in types` — after `types.append(Tuple)` —
holds exactly for `tup` and `pylist` values, which are rebuilt as `Tuple`s
of their recursively converted elements; leaves pass through. -/

mutual
def tuplefyF {α : Type} : Obj α → Obj α
  | .tup xs => .tup (tuplefyL xs)
  | .pylist xs => .tup (tuplefyL xs)
  | .leaf a => .leaf a
def tuplefyL {α : Type} : ObjList α → ObjList α
  | .nil => .nil
  | .cons x xs => .cons (tuplefyF x) (tuplefyL xs)
end

/-! ## `split_agg` (tuple.py lines 295-300)

`Tuple(zip(*new)).tuplefy()`: `zip` over the elements of `new` (each must
be iterable — python raises `TypeError` otherwise), truncating at the
shortest, producing plain tuples (`pylist` here), which the final
`tuplefy` converts to `Tuple`s. -/

/-- Heads and tails of a list of lists; `none` if any list is empty
(where python's `zip` stops). -/
def headsTails {β : Type} : List (List β) → Option (List β × List (List β))
  | [] => some ([], [])
  | [] :: _ => none
  | (x :: xs) :: rest =>
    match headsTails rest with
    | none => none
    | some (hs, ts) => some (x :: hs, xs :: ts)

/-- Computes `zip(*cols)` for a non-empty list of columns, driven structurally by
the first column (python `zip` stops at the shortest iterable). -/
def zipMinGo {β : Type} : List β → List (List β) → List (List β)
  | [], _ => []
  | x :: xs, cs =>
    match headsTails cs with
    | none => []
    | some (hs, ts) => (x :: hs) :: zipMinGo xs ts

/-- Computes `zip(*cols)`; with no iterables `zip()` is empty. -/
def zipMin {β : Type} : List (List β) → List (List β)
  | [] => []
  | c :: cs => zipMinGo c cs

/-- Python `zip(*new)` requires every element of `new` to be iterable; this
collects all the element lists, or `none` when some element is a
non-iterable leaf. -/
def iterAllElems {α : Type} : List (Obj α) → Option (List (List (Obj α)))
  | [] => some []
  | x :: xs =>
    match iterElems x, iterAllElems xs with
    | some l, some ls => some (l :: ls)
    | _, _ => none

mutual
def split_aggF {α : Type} : Obj α → Except Err (Obj α)
  | .tup xs =>
    match splitAggL xs with
    | .error e => .error e
    | .ok new =>
      match iterAllElems new with
      | none => .error .typeError
      | some cols =>
        .ok (tuplefyF (.tup (ObjList.ofList ((zipMin cols).map
          (fun row => Obj.pylist (ObjList.ofList row))))))
  | agg => .ok agg
def splitAggL {α : Type} : ObjList α → Except Err (List (Obj α))
  | .nil => .ok []
  | .cons x xs =>
    match split_aggF x with
    | .error e => .error e
    | .ok y =>
      match splitAggL xs with
      | .error e => .error e
      | .ok ys => .ok (y :: ys)
end

/-! ## `flatten_tuple` (tuple.py lines 242-250)

One pass splices the children of every direct `Tuple` child into the
parent (a non-container child `sub` is kept, via the singleton `(sub,)`);
the pass is repeated until the result is flat.  Termination: each repeated
pass strictly decreases the number of `Tuple` nodes reachable through
`Tuple` spines (`tupCount`). -/

mutual
def tupCount {α : Type} : Obj α → Nat
  | .tup xs => tupCountL xs + 1
  | _ => 0
def tupCountL {α : Type} : ObjList α → Nat
  | .nil => 0
  | .cons x xs => tupCount x + tupCountL xs
end

/-- One pass `Tuple(itertools.chain.from_iterable(sub if type(sub) in _CONTAINERS
else (sub,) for sub in data))` for one pass of `flatten_tuple`. -/
def flattenStep {α : Type} : ObjList α → ObjList α
  | .nil => .nil
  | .cons (Obj.tup ys) xs => ys.append (flattenStep xs)
  | .cons s xs => .cons s (flattenStep xs)

/-- Number of direct children that are `Tuple`s. -/
def numTup {α : Type} : ObjList α → Nat
  | .nil => 0
  | .cons (Obj.tup _) xs => numTup xs + 1
  | .cons _ xs => numTup xs

lemma tupCountL_append {α : Type} (xs ys : ObjList α) :
    tupCountL (xs.append ys) = tupCountL xs + tupCountL ys := by
  induction xs using ObjList.spineInduction with
  | nil => simp [ObjList.append, tupCountL]
  | cons x xs ih => simp [ObjList.append, tupCountL, ih]; omega

lemma tupCountL_flattenStep {α : Type} (xs : ObjList α) :
    tupCountL (flattenStep xs) + numTup xs = tupCountL xs := by
  induction xs using ObjList.spineInduction with
  | nil => simp [flattenStep, numTup, tupCountL]
  | cons x xs ih =>
    cases x with
    | tup ys =>
      simp [flattenStep, numTup, tupCountL, tupCountL_append, tupCount]
      omega
    | leaf a => simp [flattenStep, numTup, tupCountL, tupCount]; omega
    | pylist ys => simp [flattenStep, numTup, tupCountL, tupCount]; omega

lemma numTup_zero_flat {α : Type} (xs : ObjList α) (h : numTup xs = 0) :
    allNotContainer (flattenStep xs) = true := by
  induction xs using ObjList.spineInduction with
  | nil => simp [flattenStep, allNotContainer]
  | cons x xs ih =>
    cases x with
    | tup ys => simp [numTup] at h
    | leaf a =>
      simp [numTup] at h
      simp [flattenStep, allNotContainer, notContainer, ih h]
    | pylist ys =>
      simp [numTup] at h
      simp [flattenStep, allNotContainer, notContainer, ih h]

lemma flattenStep_decrease {α : Type} (xs : ObjList α)
    (h : ¬ is_flatF (Obj.tup (flattenStep xs)) = true) :
    tupCount (Obj.tup (flattenStep xs)) < tupCount (Obj.tup xs) := by
  have h1 := tupCountL_flattenStep xs
  have h2 : numTup xs ≠ 0 := by
    intro h0
    exact h (by simp [is_flatF, numTup_zero_flat xs h0])
  simp only [tupCount]
  omega

def flatten_tupleF {α : Type} (data : Obj α) : Obj α :=
  match data with
  | .tup xs =>
    if h : is_flatF (Obj.tup (flattenStep xs)) then Obj.tup (flattenStep xs)
    else flatten_tupleF (Obj.tup (flattenStep xs))
  | data => data
termination_by tupCount data
decreasing_by exact flattenStep_decrease xs h

/-! ## Structural predicates used by the theorems (not from the source) -/

mutual
/-- A value produced by `tuplefy`: only `Tuple` nodes and leaves. -/
def isTuplefied {α : Type} : Obj α → Bool
  | .leaf _ => true
  | .tup xs => isTuplefiedL xs
  | .pylist _ => false
def isTuplefiedL {α : Type} : ObjList α → Bool
  | .nil => true
  | .cons x xs => isTuplefied x && isTuplefiedL xs
end

mutual
/-- No `Tuple` node anywhere in the value is empty. -/
def noEmpty {α : Type} : Obj α → Bool
  | .leaf _ => true
  | .pylist _ => true
  | .tup .nil => false
  | .tup (.cons x xs) => noEmptyL (.cons x xs)
def noEmptyL {α : Type} : ObjList α → Bool
  | .nil => true
  | .cons x xs => noEmpty x && noEmptyL xs
end

mutual
/-- Equal topology: the same tree of `Tuple` nodes (non-container values,
which `tuple_levels` replaces by their level, are not distinguished). -/
def sameShape {α : Type} : Obj α → Obj α → Bool
  | .tup xs, .tup ys => sameShapeL xs ys
  | .tup _, _ => false
  | _, .tup _ => false
  | _, _ => true
def sameShapeL {α : Type} : ObjList α → ObjList α → Bool
  | .nil, .nil => true
  | .cons x xs, .cons y ys => sameShape x y && sameShapeL xs ys
  | _, _ => false
end

/-! ## Array and tensor leaves (`shapes_of`, `type_of`, `astype`, `cat`)

The opaque leaf values of `tuple.py` are instantiated with a minimal model
of the two supported representations: a torch tensor and a numpy array,
each carrying a dtype tag and a shape, plus an unsupported python object
and a `RuntimeError` exception object (which `astype` produces as a
*value*). -/

inductive Val where
  | tensor (dtype : Nat) (shape : List Nat)
  | ndarr (dtype : Nat) (shape : List Nat)
  | pyobj (n : Nat)
  | rerr
  deriving DecidableEq

/-- Python type tags as observed by `types_of`. -/
inductive PyType where
  | tensorT
  | ndarrT
  | listT
  | otherT
  deriving DecidableEq

/-- The function applied by `types_of` (tuple.py lines 223-226):
`type(data)` on each non-container value. -/
def typeTagF : Obj Val → Obj PyType
  | .leaf (.tensor _ _) => .leaf .tensorT
  | .leaf (.ndarr _ _) => .leaf .ndarrT
  | .leaf _ => .leaf .otherT
  | .pylist _ => .leaf .listT
  | .tup _ => .leaf .otherT

def types_ofF (data : Obj Val) : Obj PyType :=
  apply_tupleF typeTagF data

/-- Function `type_of` (tuple.py lines 228-235): flatten the types, require every
entry to equal the first (`count == len`), raise `ValueError` otherwise;
`types[0]` on an empty tuple raises `IndexError`; a non-`Tuple` argument
has no `.types()` method. -/
def type_ofF (data : Obj Val) : Except Err PyType :=
  match data with
  | .tup _ =>
    match flatten_tupleF (types_ofF data) with
    | .tup .nil => .error .indexError
    | .tup (.cons t ts) =>
      if (ObjList.cons t ts).toList.count t = (ObjList.cons t ts).toList.length then
        match t with
        | .leaf tt => .ok tt
        | _ => .error .typeError
      else .error (.valueError "All objects in 'data' doest have the same type.")
    | _ => .error .typeError
  | _ => .error .attributeError

/-- The function applied by `shapes_of` (tuple.py lines 178-181):
`data.shape` on each non-container value.  On a value with no `.shape`
attribute python raises; that case is modelled by an empty shape and is
not reached by any theorem below. -/
def shapeLeafF : Obj Val → Obj (List Nat)
  | .leaf (.tensor _ s) => .leaf s
  | .leaf (.ndarr _ s) => .leaf s
  | _ => .leaf []

def shapes_ofF (data : Obj Val) : Obj (List Nat) :=
  apply_tupleF shapeLeafF data

/-- The `lambda x: x[1:]` applied to the shapes in `cat`. -/
def shapeTailF : Obj (List Nat) → Obj (List Nat)
  | .leaf s => .leaf (s.drop 1)
  | x => x

/-- Model of `torch.cat` on a python list of tensors: the first dimensions
are summed, dtype and trailing dimensions are those of the first tensor
(torch itself raises on an empty list, a dtype or trailing-shape mismatch,
or a non-tensor entry; those cases yield the error object `Val.rerr` here
and are not reached from `cat`, which validates shapes and types first). -/
def firstDimSum : ObjList Val → Nat
  | .nil => 0
  | .cons (.leaf (.tensor _ (h :: _))) rest => h + firstDimSum rest
  | .cons (.leaf (.ndarr _ (h :: _))) rest => h + firstDimSum rest
  | .cons _ rest => firstDimSum rest

def torchCatF : Obj Val → Obj Val
  | .pylist (.cons (.leaf (.tensor dt (h :: t))) rest) =>
    .leaf (.tensor dt ((h + firstDimSum rest) :: t))
  | _ => .leaf .rerr

/-- Model of `np.concatenate`, analogous to `torchCatF`. -/
def npConcatenateF : Obj Val → Obj Val
  | .pylist (.cons (.leaf (.ndarr dt (h :: t))) rest) =>
    .leaf (.ndarr dt ((h + firstDimSum rest) :: t))
  | _ => .leaf .rerr

/-- Function `cat` (tuple.py lines 268-283): `dim != 0` raises
`NotImplementedError` before anything else; then the trailing shapes are
validated, the common element type computed, the data aggregated with
`agg_list`, and the per-position lists concatenated. -/
def catF (seq : Obj Val) (dim : Int) : Except Err (Obj Val) :=
  if dim ≠ 0 then .error .notImplementedError
  else
    match all_equalF (apply_tupleF shapeTailF (shapes_ofF seq)) with
    | .error e => .error e
    | .ok false => .error (.valueError "Shapes of merged arrays need to be the same")
    | .ok true =>
      match type_ofF seq with
      | .error e => .error e
      | .ok type_ =>
        match agg_listF seq with
        | .error e => .error e
        | .ok agg =>
          if type_ = PyType.tensorT then .ok (apply_tupleF torchCatF agg)
          else if type_ = PyType.ndarrT then .ok (apply_tupleF npConcatenateF agg)
          else .error (.runtimeError "Need type to be np.ndarray or torch.Tensor, fournd")

/-- Method `Tuple.cat(self, dim=0)` (tuple.py lines 53-54): the body is
`return cat(self, dim=0)` — the received `dim` argument is discarded and
the module-level `cat` is always invoked with `dim=0`. -/
def Tuple_catF (self : Obj Val) (dim : Int) : Except Err (Obj Val) :=
  catF self 0

/-- The per-value conversion of `astype` (tuple.py lines 207-221).  For a
torch tensor it calls `data.type(dtype)`, for a numpy array
`data.astype(dtype)`; for anything else the source executes
`return RuntimeError(...)` — the exception object is *returned as the
result value*, not raised. -/
def astypeLeafF (dtype : Nat) : Obj Val → Obj Val
  | .leaf (.tensor _ s) => .leaf (.tensor dtype s)
  | .leaf (.ndarr _ s) => .leaf (.ndarr dtype s)
  | _ => .leaf .rerr

/-- Function `astype` (tuple.py lines 207-221), an `apply_tuple`-wrapped function.
Its Lean type is total: no code path of the source raises. -/
def astypeF (data : Obj Val) (dtype : Nat) : Obj Val :=
  apply_tupleF (astypeLeafF dtype) data

/-! ## The training loop (`pyth/base.py`)

`Model.fit_dataloader` (base.py lines 76-92) drives epochs and batches and
reacts to the two aggregate stop signals of the callbacks list.  The
aggregate results of `self.callbacks.before_step()` and
`self.callbacks.on_epoch_end()` are parameters (functions of the epoch and
batch indices); the loop body is recorded as an event trace, and the
returned value (`self.log`) or the raised `RuntimeError` as an `Except`. -/

inductive Ev where
  | zeroGrad (epoch batch : Nat)
  | computeLoss (epoch batch : Nat)
  | backward (epoch batch : Nat)
  | optStep (epoch batch : Nat)
  | batchEnd (epoch batch : Nat)
  | epochEnd (epoch : Nat)
  deriving DecidableEq

/-- The inner `for data in dataloader` loop of `fit_dataloader` for one
epoch: gradients are zeroed, the loss computed and backpropagated, then
`before_step()`; a truthy result raises
`RuntimeError('Stop signal in before_step().')` — the `Bool` flags the
abort — otherwise `optimizer.step()` and `on_batch_end()` run. -/
def runBatches (before_step : Nat → Nat → Bool) (epoch : Nat) :
    List Nat → List Ev × Bool
  | [] => ([], false)
  | b :: bs =>
    if before_step epoch b then
      ([.zeroGrad epoch b, .computeLoss epoch b, .backward epoch b], true)
    else
      let (tr, ab) := runBatches before_step epoch bs
      ([.zeroGrad epoch b, .computeLoss epoch b, .backward epoch b,
        .optStep epoch b, .batchEnd epoch b] ++ tr, ab)

/-- The outer `for _ in range(epochs)` loop: after the batches of an
epoch, `on_epoch_end()`; a truthy result `break`s the loop and `self.log`
is returned normally. -/
def runEpochs (before_step : Nat → Nat → Bool) (on_epoch_end : Nat → Bool)
    (batches_per_epoch : Nat) : List Nat → List Ev × Except String Unit
  | [] => ([], .ok ())
  | e :: es =>
    let (tr, ab) := runBatches before_step e (List.range batches_per_epoch)
    if ab then (tr, .error "Stop signal in before_step().")
    else if on_epoch_end e then (tr ++ [.epochEnd e], .ok ())
    else
      let (tr2, r) := runEpochs before_step on_epoch_end batches_per_epoch es
      (tr ++ [.epochEnd e] ++ tr2, r)

/-- Method `Model.fit_dataloader` (base.py lines 76-92); the `.ok ()` result
stands for the normally returned `self.log`. -/
def fit_dataloaderF (epochs batches_per_epoch : Nat)
    (before_step : Nat → Nat → Bool) (on_epoch_end : Nat → Bool) :
    List Ev × Except String Unit :=
  runEpochs before_step on_epoch_end batches_per_epoch (List.range epochs)

/-- The trace of a batch that runs to completion (no stop signal). -/
def fullBatchEvs (epoch : Nat) (bs : List Nat) : List Ev :=
  bs.flatMap (fun b =>
    [.zeroGrad epoch b, .computeLoss epoch b, .backward epoch b,
     .optStep epoch b, .batchEnd epoch b])

/-- The trace of a full epoch that ends without a stop signal. -/
def fullEpochEvs (batches_per_epoch : Nat) (es : List Nat) : List Ev :=
  es.flatMap (fun e => fullBatchEvs e (List.range batches_per_epoch) ++ [.epochEnd e])

/-! ## The callbacks registry built by `Model._setup_train_info`
(base.py lines 67-74)

`self.callbacks = cb.CallbacksList([self.train_loss] + callbacks +
[self.log])`: the train-loss monitor (a `cb.MonitorTrainLoss`), then the
user-supplied callbacks in the order given, then the training logger.
The entry kinds named by the spec are represented explicitly so the
composition can be compared with the claimed one. -/

inductive CbEntry where
  | monitorTrainLoss
  | trainingLogger
  | user (i : Nat)
  | optimizerEntry
  | trainMetrics
  | valMetrics
  deriving DecidableEq

def setup_train_info_callbacks (callbacks : List CbEntry) : List CbEntry :=
  [CbEntry.monitorTrainLoss] ++ callbacks ++ [CbEntry.trainingLogger]

/-! ## The callback registry (`torchtuples/callbacks.py`, not in `src/`)

Modelled from the spec: the repository's `CallbackHandler` class is not
among the provided sources (only `src/tests/test_callbacks.py` exercises
it).  Per the spec, §4.2: construction accepts a plain sequence of
handlers whose names are auto-derived from each handler's type name,
uniquified on collision by appending `_0`, `_1`, ... for the second and
subsequent occurrences; `append(handler, name)` and item assignment with
an explicit duplicate name fail with an assertion-style error whose
message identifies the duplicate name, leaving the registry unchanged. -/

structure Handler where
  typeName : String
  deriving DecidableEq

/-- An ordered mapping of registry entries. -/
abbrev Registry := List (String × Handler)

def registryKeys (reg : Registry) : List String := reg.map Prod.fst

/-- Modelled from the spec: auto-derivation of a free name from a
handler's type name — the bare type name if free, otherwise the first
free `TypeName_0`, `TypeName_1`, ...  (at most `reg.length` names are
taken, so a free suffix below `reg.length + 1` always exists; the
fallback arm is unreachable). -/
def deriveName (reg : Registry) (typeName : String) : String :=
  if typeName ∉ registryKeys reg then typeName
  else
    match (List.range (reg.length + 1)).find?
        (fun k => (typeName ++ "_" ++ toString k) ∉ registryKeys reg) with
    | some k => typeName ++ "_" ++ toString k
    | none => typeName ++ "_" ++ toString reg.length

/-- Modelled from the spec: `append(handler, name=None)` and item
assignment.  An explicit name already present fails with the assertion
message `Duplicate name: <name>` (the error is raised before any
insertion, so the registry value is unchanged — the caller keeps `reg`);
a missing name is auto-derived and uniquified. -/
def registryAppend (reg : Registry) (handler : Handler) (name : Option String) :
    Except String Registry :=
  match name with
  | some n =>
    if n ∈ registryKeys reg then .error ("Duplicate name: " ++ n)
    else .ok (reg ++ [(n, handler)])
  | none => .ok (reg ++ [(deriveName reg handler.typeName, handler)])

/-- Modelled from the spec: construction from a plain sequence of
handlers appends each in order with an auto-derived name. -/
def registryOfHandlers (handlers : List Handler) : Registry :=
  handlers.foldl (fun reg h => reg ++ [(deriveName reg h.typeName, h)]) []

/-! ## Specification-side combinators used to characterise
`agg_list`/`split_agg` (not from the source) -/

def isContainer {α : Type} : Obj α → Bool
  | .tup _ => true
  | _ => false

/-- Head of a child row; the default is never used on the rectangular
rows the lemmas below quantify over. -/
def hdD {α : Type} (l : List (Obj α)) : Obj α :=
  l.headD (Obj.tup .nil)

mutual
/-- The value `agg_list` builds from a template `h` (the first element)
and the value list `vs` collected so far: a list of the per-position
values at every non-container position of `h`. -/
def aggOf {α : Type} : Obj α → List (Obj α) → Obj α
  | .tup xs, vs => .tup (aggOfL xs (vs.map iterElemsD))
  | _, vs => .pylist (ObjList.ofList vs)
def aggOfL {α : Type} : ObjList α → List (List (Obj α)) → ObjList α
  | .nil, _ => .nil
  | .cons x xs, rows => .cons (aggOf x (rows.map hdD)) (aggOfL xs (rows.map List.tail))
end

/-- What `split_agg` recovers from `aggOf h vs`: the sequence `vs` as a
`Tuple` when the template is a container, as a python list otherwise. -/
def splitX {α : Type} : Obj α → List (Obj α) → Obj α
  | .tup _, vs => .tup (ObjList.ofList vs)
  | _, vs => .pylist (ObjList.ofList vs)

/-- The list `new` of `split_agg` on `aggOf`-shaped input. -/
def splitColsObjs {α : Type} : ObjList α → List (List (Obj α)) → List (Obj α)
  | .nil, _ => []
  | .cons x xs, rows => splitX x (rows.map hdD) :: splitColsObjs xs (rows.map List.tail)

/-- The per-position columns of a list of rows, with arity given by the
template's children. -/
def colsOf {α : Type} : ObjList α → List (List (Obj α)) → List (List (Obj α))
  | .nil, _ => []
  | .cons _ xs, rows => rows.map hdD :: colsOf xs (rows.map List.tail)

/-- A row of children aligned (in length and pointwise topology) with a
template's children. -/
def shapeRow {α : Type} : ObjList α → List (Obj α) → Bool
  | .nil, [] => true
  | .cons x xs, v :: r => sameShape x v && shapeRow xs r
  | _, _ => false

/-! # Theorems -/

/-! ## Claim C9 — `tuplefy` idempotence -/

mutual
lemma tuplefyF_tuplefyF {α : Type} (x : Obj α) :
    tuplefyF (tuplefyF x) = tuplefyF x := by
  cases x with
  | leaf a => rfl
  | tup xs => simp [tuplefyF, tuplefyL_tuplefyL xs]
  | pylist xs => simp [tuplefyF, tuplefyL_tuplefyL xs]
lemma tuplefyL_tuplefyL {α : Type} (xs : ObjList α) :
    tuplefyL (tuplefyL xs) = tuplefyL xs := by
  cases xs with
  | nil => rfl
  | cons x xs => simp [tuplefyL, tuplefyF_tuplefyF x, tuplefyL_tuplefyL xs]
end

/-- C9: for every value `x` (any nesting of lists/tuples/containers over
opaque leaves), `tuplefy` is idempotent — `tuplefy (tuplefy x) = tuplefy
x` — and a value whose runtime type is not among the convertible sequence
types (an opaque leaf) passes through unchanged. -/
theorem tuplefy_idempotent_and_leaf_passthrough {α : Type} :
    (∀ x : Obj α, tuplefyF (tuplefyF x) = tuplefyF x) ∧
    (∀ a : α, tuplefyF (Obj.leaf a) = Obj.leaf a) :=
  ⟨tuplefyF_tuplefyF, fun _ => rfl⟩

/-! ## Claim C4 — `astype` returns (instead of raising) on unsupported leaves -/

/-- C4 (code bug): on a container with a leaf that is neither a tensor nor
an array, `astype` does **not** raise: the source executes
`return RuntimeError(...)`, so the exception object comes back as an
ordinary leaf value of the result container while supported leaves are
converted.  Evaluated at the failing input
`astype((tensor, <python object>), dtype=1)`. -/
theorem astype_embeds_runtime_error_value :
    astypeF (Obj.tup (.cons (.leaf (.tensor 0 [2])) (.cons (.leaf (.pyobj 7)) .nil))) 1
      = Obj.tup (.cons (.leaf (.tensor 1 [2])) (.cons (.leaf .rerr) .nil)) := rfl

/-! ## Claim C1 — composition of the callbacks registry -/

/-- C1 (code bug): the registry built by `Model._setup_train_info` for one
user callback is `[train-loss monitor, user callback, logger]`: it begins
with the training-data metric monitor, not with an optimizer-integration
entry, and contains neither an optimizer entry nor a validation-metric
monitor — the order asserted by the spec and by
`test_callbacks.py::test_callback_order` / `test_multiple_idential_list`
(`['optimizer', 'train_metrics', 'val_metrics', ..., 'log']`) is not what
this code produces. -/
theorem setup_train_info_registry_order :
    setup_train_info_callbacks [CbEntry.user 0]
      = [CbEntry.monitorTrainLoss, CbEntry.user 0, CbEntry.trainingLogger] ∧
    CbEntry.optimizerEntry ∉ setup_train_info_callbacks [CbEntry.user 0] ∧
    CbEntry.valMetrics ∉ setup_train_info_callbacks [CbEntry.user 0] ∧
    (setup_train_info_callbacks [CbEntry.user 0]).head? ≠ some CbEntry.optimizerEntry := by
  decide

/-! ## Claim C5 — registry naming and duplicate rejection (spec-modelled) -/

/-- C5 (spec-modelled — `callbacks.py` is not among the sources):
constructing a registry from two unnamed handlers of the same type yields
the distinct names `Callback`, `Callback_0` in insertion order; appending
(or item-assigning) a handler under a name already present fails with the
assertion message `Duplicate name: <name>` without producing any new
registry. -/
theorem registry_naming_and_duplicate_rejection :
    registryKeys (registryOfHandlers [⟨"Callback"⟩, ⟨"Callback"⟩])
      = ["Callback", "Callback_0"] ∧
    registryKeys (registryOfHandlers [⟨"Callback"⟩, ⟨"Callback"⟩, ⟨"Callback"⟩])
      = ["Callback", "Callback_0", "Callback_1"] ∧
    registryAppend [("foo", ⟨"Callback"⟩), ("bar", ⟨"Callback"⟩)] ⟨"Callback"⟩ (some "foo")
      = .error "Duplicate name: foo" ∧
    registryAppend [("foo", ⟨"Callback"⟩), ("bar", ⟨"Callback"⟩)] ⟨"Callback"⟩ (some "bar")
      = .error "Duplicate name: bar" ∧
    registryAppend [("foo", ⟨"Callback"⟩), ("bar", ⟨"Callback"⟩)] ⟨"Callback"⟩ (some "new_foo")
      = .ok [("foo", ⟨"Callback"⟩), ("bar", ⟨"Callback"⟩), ("new_foo", ⟨"Callback"⟩)] := by
  decide

/-! ## Claims C6 and C10 — `reduce_tuple` -/

/-- C6: `reduce` raises the topology `ValueError` exactly when the
top-level elements do not all share the same topology-levels structure,
and it does so before `func` is applied to anything — the result for a
failing check is the same error for *every* `func` and `init_func`. -/
theorem reduce_topology_validation {α : Type} [DecidableEq α] (cs : ObjList α) :
    (all_equalF (to_levelsF (Obj.tup cs)) = .ok false →
      ∀ (func : Obj α → Obj α → Obj α) (init_func : Option (Obj α → Obj α)),
        reduce_tupleF func init_func (Obj.tup cs)
          = .error (.valueError "Topology is not the same for all elements in data, and can not be reduced")) ∧
    (all_equalF (to_levelsF (Obj.tup cs)) = .ok true →
      ∀ (func : Obj α → Obj α → Obj α) (init_func : Option (Obj α → Obj α)),
        reduce_tupleF func init_func (Obj.tup cs)
          ≠ .error (.valueError "Topology is not the same for all elements in data, and can not be reduced")) := by
  constructor
  · intro h func init_func
    simp [reduce_tupleF, h]
  · intro h func init_func
    cases init_func with
    | none => cases cs with
      | nil => simp [reduce_tupleF, h]
      | cons x xs => simp [reduce_tupleF, h]
    | some g => cases cs with
      | nil => simp [reduce_tupleF, h]
      | cons x xs => cases x <;> simp [reduce_tupleF, h]

lemma flattenStep_of_allNotContainer {α : Type} (xs : ObjList α)
    (h : allNotContainer xs = true) : flattenStep xs = xs := by
  induction xs using ObjList.spineInduction with
  | nil => rfl
  | cons x xs ih =>
    cases x with
    | tup ys => simp [allNotContainer, notContainer] at h
    | leaf a =>
      simp [allNotContainer] at h
      simp [flattenStep, ih h.2]
    | pylist ys =>
      simp [allNotContainer] at h
      simp [flattenStep, ih h.2]

lemma flatten_of_flat {α : Type} (x : Obj α) (h : is_flatF x = true) :
    flatten_tupleF x = x := by
  cases x with
  | leaf a => simp [flatten_tupleF]
  | pylist xs => simp [flatten_tupleF]
  | tup xs =>
    have hstep : flattenStep xs = xs :=
      flattenStep_of_allNotContainer xs (by simpa [is_flatF] using h)
    rw [flatten_tupleF, hstep, dif_pos h]

theorem flatten_is_flat {α : Type} : ∀ x : Obj α, is_flatF (flatten_tupleF x) = true
  | .leaf _ => by simp [flatten_tupleF, is_flatF]
  | .pylist _ => by simp [flatten_tupleF, is_flatF]
  | .tup xs => by
    rw [flatten_tupleF]
    by_cases h : is_flatF (Obj.tup (flattenStep xs)) = true
    · rw [dif_pos h]; exact h
    · rw [dif_neg h]; exact flatten_is_flat (Obj.tup (flattenStep xs))
termination_by x => tupCount x
decreasing_by exact flattenStep_decrease xs h

/-- C8: for every nested container `x`, `flatten x` is a total operation
whose result satisfies `is_flat`; `flatten` is idempotent; and an
already-flat container is returned unchanged. -/
theorem flatten_flat_idempotent {α : Type} (x : Obj α) :
    is_flatF (flatten_tupleF x) = true ∧
    flatten_tupleF (flatten_tupleF x) = flatten_tupleF x ∧
    (is_flatF x = true → flatten_tupleF x = x) :=
  ⟨flatten_is_flat x, flatten_of_flat _ (flatten_is_flat x), flatten_of_flat x⟩

/-- Witness for C8 at the already-flat container `(1, 2)` and the nested
container `(1, ((2,), 3))`. -/
theorem flatten_flat_idempotent_witness :
    is_flatF (Obj.tup (.cons (Obj.leaf 1) (.cons (Obj.leaf 2) .nil))) = true ∧
    flatten_tupleF (Obj.tup (.cons (Obj.leaf 1) (.cons (Obj.leaf 2) .nil)))
      = Obj.tup (.cons (Obj.leaf 1) (.cons (Obj.leaf 2) .nil)) ∧
    is_flatF (flatten_tupleF (Obj.tup (.cons (Obj.leaf 1)
      (.cons (Obj.tup (.cons (Obj.tup (.cons (Obj.leaf 2) .nil)) (.cons (Obj.leaf 3) .nil)))
        .nil)))) = true := by
  refine ⟨by decide, ?_, ?_⟩
  · exact (flatten_flat_idempotent
      (Obj.tup (.cons (Obj.leaf 1) (.cons (Obj.leaf 2) .nil)))).2.2 (by decide)
  · exact (flatten_flat_idempotent
      (Obj.tup (.cons (Obj.leaf 1)
        (.cons (Obj.tup (.cons (Obj.tup (.cons (Obj.leaf 2) .nil)) (.cons (Obj.leaf 3) .nil)))
          .nil)))).1

/-! ## Claim C3 — `cat` and the `dim` argument -/

lemma flatten_step_once {α : Type} (xs : ObjList α)
    (h : is_flatF (Obj.tup (flattenStep xs)) = true) :
    flatten_tupleF (Obj.tup xs) = Obj.tup (flattenStep xs) := by
  rw [flatten_tupleF, dif_pos h]

/-- C3 (code bug): the module-level `cat(seq, dim)` does raise
`NotImplementedError` for every `dim ≠ 0` before doing anything else —
but the method `Tuple.cat(self, dim)` discards its `dim` argument and
calls `cat(self, dim=0)`, so `C.cat(dim=1)` raises nothing and happily
concatenates along dimension 0: evaluated at the container
`((tensor of shape (1,2),), (tensor of shape (1,2),))`, `C.cat(1)`
returns `((tensor of shape (2,2),),)`. -/
theorem cat_requires_dim_zero_but_method_ignores_dim :
    (∀ (seq : Obj Val) (dim : Int), dim ≠ 0 → catF seq dim = .error .notImplementedError) ∧
    Tuple_catF
        (Obj.tup (.cons (Obj.tup (.cons (.leaf (.tensor 0 [1, 2])) .nil))
          (.cons (Obj.tup (.cons (.leaf (.tensor 0 [1, 2])) .nil)) .nil))) 1
      = .ok (Obj.tup (.cons (.leaf (.tensor 0 [2, 2])) .nil)) := by
  constructor
  · intro seq dim hd
    simp [catF, hd]
  · have h0 : types_ofF
        (Obj.tup (.cons (Obj.tup (.cons (.leaf (.tensor 0 [1, 2])) .nil))
          (.cons (Obj.tup (.cons (.leaf (.tensor 0 [1, 2])) .nil)) .nil)))
        = Obj.tup (.cons (Obj.tup (.cons (.leaf PyType.tensorT) .nil))
            (.cons (Obj.tup (.cons (.leaf PyType.tensorT) .nil)) .nil)) := rfl
    have hfl : flatten_tupleF (types_ofF
        (Obj.tup (.cons (Obj.tup (.cons (.leaf (.tensor 0 [1, 2])) .nil))
          (.cons (Obj.tup (.cons (.leaf (.tensor 0 [1, 2])) .nil)) .nil))))
        = Obj.tup (.cons (.leaf PyType.tensorT) (.cons (.leaf PyType.tensorT) .nil)) := by
      rw [h0, flatten_step_once _ (by decide)]
      decide
    have hty : type_ofF
        (Obj.tup (.cons (Obj.tup (.cons (.leaf (.tensor 0 [1, 2])) .nil))
          (.cons (Obj.tup (.cons (.leaf (.tensor 0 [1, 2])) .nil)) .nil)))
        = .ok PyType.tensorT := by
      unfold type_ofF
      rw [hfl]
      rfl
    unfold Tuple_catF catF
    rw [hty]
    rfl

/-- Witness for C3, discharging the `dim ≠ 0` hypothesis of its first
conjunct at `dim = 1` on the empty container. -/
theorem cat_requires_dim_zero_witness :
    (1 : Int) ≠ 0 ∧ catF (Obj.tup .nil) 1 = .error .notImplementedError :=
  ⟨by decide,
    cat_requires_dim_zero_but_method_ignores_dim.1 (Obj.tup .nil) 1 (by decide)⟩

/-! ## Claim C2 — stop signals in `fit_dataloader` -/

lemma runBatches_no_stop {bs : Nat → Nat → Bool} {e : Nat} {l : List Nat}
    (h : ∀ b ∈ l, bs e b = false) :
    runBatches bs e l = (fullBatchEvs e l, false) := by
  induction l with
  | nil => rfl
  | cons b l ih =>
    have hb : bs e b = false := h b (by simp)
    simp [runBatches, hb, ih (fun b' hb' => h b' (by simp [hb'])), fullBatchEvs]

lemma runBatches_stop {bs : Nat → Nat → Bool} {e b : Nat} {l1 l2 : List Nat}
    (hb : bs e b = true) (h1 : ∀ b' ∈ l1, bs e b' = false) :
    runBatches bs e (l1 ++ b :: l2)
      = (fullBatchEvs e l1 ++ [.zeroGrad e b, .computeLoss e b, .backward e b], true) := by
  induction l1 with
  | nil => simp [runBatches, hb, fullBatchEvs]
  | cons b' l1 ih =>
    have hb' : bs e b' = false := h1 b' (by simp)
    simp [runBatches, hb', ih (fun x hx => h1 x (by simp [hx])), fullBatchEvs]

lemma runEpochs_skip {bs : Nat → Nat → Bool} {oe : Nat → Bool} {nb : Nat}
    {es1 es2 : List Nat}
    (h : ∀ e ∈ es1, (∀ b ∈ List.range nb, bs e b = false) ∧ oe e = false) :
    runEpochs bs oe nb (es1 ++ es2)
      = (fullEpochEvs nb es1 ++ (runEpochs bs oe nb es2).1,
         (runEpochs bs oe nb es2).2) := by
  induction es1 with
  | nil => simp [fullEpochEvs]
  | cons e es1 ih =>
    have he := h e (by simp)
    rw [List.cons_append, runEpochs, runBatches_no_stop he.1]
    simp [he.2, ih (fun x hx => h x (by simp [hx])), fullEpochEvs]

lemma range_split {e n : Nat} (h : e < n) :
    ∃ rest, List.range n = List.range e ++ e :: rest := by
  have hn : n = (e + 1) + (n - (e + 1)) := by omega
  refine ⟨(List.range (n - (e + 1))).map (fun t => e + 1 + t), ?_⟩
  rw [hn, List.range_add, List.range_succ]
  simp

lemma optStep_mem_fullBatchEvs {e b e' : Nat} {l : List Nat} :
    Ev.optStep e b ∈ fullBatchEvs e' l ↔ (e = e' ∧ b ∈ l) := by
  simp only [fullBatchEvs, List.mem_flatMap]
  constructor
  · rintro ⟨b', hb', hmem⟩
    simp only [List.mem_cons, List.not_mem_nil, or_false] at hmem
    rcases hmem with h | h | h | h | h <;>
      (injection h <;> rename_i h1 h2 <;> exact ⟨h1, h2 ▸ hb'⟩)
  · rintro ⟨rfl, hb⟩
    exact ⟨b, hb, by simp⟩

lemma epochEnd_not_mem_fullBatchEvs {e' e : Nat} {l : List Nat} :
    Ev.epochEnd e' ∉ fullBatchEvs e l := by
  simp only [fullBatchEvs, List.mem_flatMap]
  rintro ⟨b', _, hmem⟩
  simp only [List.mem_cons, List.not_mem_nil, or_false] at hmem
  rcases hmem with h | h | h | h | h <;> cases h

lemma epochEnd_mem_fullEpochEvs {e' nb : Nat} {es : List Nat} :
    Ev.epochEnd e' ∈ fullEpochEvs nb es ↔ e' ∈ es := by
  simp only [fullEpochEvs, List.mem_flatMap, List.mem_append]
  constructor
  · rintro ⟨e, he, h | h⟩
    · exact absurd h epochEnd_not_mem_fullBatchEvs
    · simp only [List.mem_cons, List.not_mem_nil, or_false] at h
      injection h with h1
      exact h1 ▸ he
  · intro h
    exact ⟨e', h, Or.inr (by simp)⟩

lemma optStep_mem_fullEpochEvs {e b nb : Nat} {es : List Nat} :
    Ev.optStep e b ∈ fullEpochEvs nb es ↔ (e ∈ es ∧ b ∈ List.range nb) := by
  simp only [fullEpochEvs, List.mem_flatMap, List.mem_append]
  constructor
  · rintro ⟨e'', he'', h | h⟩
    · rcases optStep_mem_fullBatchEvs.mp h with ⟨rfl, hb⟩
      exact ⟨he'', hb⟩
    · simp only [List.mem_cons, List.not_mem_nil, or_false] at h
      cases h
  · rintro ⟨he, hb⟩
    exact ⟨e, he, Or.inl (optStep_mem_fullBatchEvs.mpr ⟨rfl, hb⟩)⟩

/-- C2: in `fit_dataloader`, a truthy aggregate `before_step()` at the
first reached point `(e, b)` makes the run raise
`RuntimeError('Stop signal in before_step().')` with no `optimizer.step()`
for that batch; a truthy aggregate `on_epoch_end()` at epoch `e` (with no
earlier stop signal of either kind) ends the run after completing epoch
`e` — every batch of epoch `e` got its optimizer step, no later epoch
runs — and the log is returned normally (`.ok`). -/
theorem fit_dataloader_stop_signals (epochs nb e b : Nat)
    (bs : Nat → Nat → Bool) (oe : Nat → Bool) :
    ((e < epochs → b < nb → bs e b = true →
      (∀ e' < e, ∀ b' < nb, bs e' b' = false) →
      (∀ b' < b, bs e b' = false) →
      (∀ e' < e, oe e' = false) →
      (fit_dataloaderF epochs nb bs oe).2 = .error "Stop signal in before_step()." ∧
      Ev.optStep e b ∉ (fit_dataloaderF epochs nb bs oe).1)) ∧
    ((e < epochs → (∀ e' < epochs, ∀ b' < nb, bs e' b' = false) →
      oe e = true → (∀ e' < e, oe e' = false) →
      (fit_dataloaderF epochs nb bs oe).2 = .ok () ∧
      Ev.epochEnd e ∈ (fit_dataloaderF epochs nb bs oe).1 ∧
      (∀ e', e < e' → Ev.epochEnd e' ∉ (fit_dataloaderF epochs nb bs oe).1) ∧
      (∀ b' < nb, Ev.optStep e b' ∈ (fit_dataloaderF epochs nb bs oe).1))) := by
  constructor
  · intro he hb hsig hprev hrow hoe
    obtain ⟨rest, hsplit⟩ := range_split he
    obtain ⟨rest2, hsplit2⟩ := range_split hb
    have hskip : ∀ e' ∈ List.range e,
        (∀ b' ∈ List.range nb, bs e' b' = false) ∧ oe e' = false := by
      intro e' he'
      have he'lt := List.mem_range.mp he'
      exact ⟨fun b' hb' => hprev e' he'lt b' (List.mem_range.mp hb'), hoe e' he'lt⟩
    have hbatch : runBatches bs e (List.range nb)
        = (fullBatchEvs e (List.range b)
            ++ [.zeroGrad e b, .computeLoss e b, .backward e b], true) := by
      rw [hsplit2]
      exact runBatches_stop hsig (fun b' hb' => hrow b' (List.mem_range.mp hb'))
    have hfit : fit_dataloaderF epochs nb bs oe
        = (fullEpochEvs nb (List.range e)
            ++ (fullBatchEvs e (List.range b)
                ++ [.zeroGrad e b, .computeLoss e b, .backward e b]),
           .error "Stop signal in before_step().") := by
      rw [fit_dataloaderF, hsplit, runEpochs_skip hskip, runEpochs, hbatch]
      simp
    rw [hfit]
    refine ⟨rfl, ?_⟩
    simp only [List.mem_append]
    rintro (h | h | h)
    · rcases optStep_mem_fullEpochEvs.mp h with ⟨hmem, _⟩
      exact absurd (List.mem_range.mp hmem) (by omega)
    · rcases optStep_mem_fullBatchEvs.mp h with ⟨_, hmem⟩
      exact absurd (List.mem_range.mp hmem) (by omega)
    · simp at h
  · intro he hbs hoeT hoeF
    obtain ⟨rest, hsplit⟩ := range_split he
    have hskip : ∀ e' ∈ List.range e,
        (∀ b' ∈ List.range nb, bs e' b' = false) ∧ oe e' = false := by
      intro e' he'
      have he'lt := List.mem_range.mp he'
      exact ⟨fun b' hb' => hbs e' (by omega) b' (List.mem_range.mp hb'),
        hoeF e' he'lt⟩
    have hbatch : runBatches bs e (List.range nb)
        = (fullBatchEvs e (List.range nb), false) :=
      runBatches_no_stop (fun b' hb' => hbs e he b' (List.mem_range.mp hb'))
    have hfit : fit_dataloaderF epochs nb bs oe
        = (fullEpochEvs nb (List.range e)
            ++ (fullBatchEvs e (List.range nb) ++ [.epochEnd e]), .ok ()) := by
      rw [fit_dataloaderF, hsplit, runEpochs_skip hskip, runEpochs, hbatch]
      simp [hoeT]
    rw [hfit]
    refine ⟨rfl, by simp, ?_, ?_⟩
    · intro e' he'
      simp only [List.mem_append]
      rintro (h | h | h)
      · exact absurd (List.mem_range.mp (epochEnd_mem_fullEpochEvs.mp h)) (by omega)
      · exact epochEnd_not_mem_fullBatchEvs h
      · simp at h
        omega
    · intro b' hb'
      simp only [List.mem_append]
      exact Or.inr (Or.inl (optStep_mem_fullBatchEvs.mpr ⟨rfl, List.mem_range.mpr hb'⟩))

/-- Witness for C2: two epochs of two batches.  With a stop signal from
`before_step` at epoch 1, batch 1, the run errors and that batch gets no
optimizer step; with no `before_step` signal and `on_epoch_end` firing at
epoch 0, the run returns the log normally after completing epoch 0. -/
theorem fit_dataloader_stop_signals_witness :
    ((fit_dataloaderF 2 2 (fun e b => decide (e = 1 ∧ b = 1)) (fun _ => false)).2
        = .error "Stop signal in before_step()." ∧
      Ev.optStep 1 1 ∉
        (fit_dataloaderF 2 2 (fun e b => decide (e = 1 ∧ b = 1)) (fun _ => false)).1) ∧
    ((fit_dataloaderF 2 2 (fun _ _ => false) (fun e => decide (e = 0))).2 = .ok () ∧
      Ev.epochEnd 0 ∈ (fit_dataloaderF 2 2 (fun _ _ => false) (fun e => decide (e = 0))).1 ∧
      (∀ e', 0 < e' →
        Ev.epochEnd e' ∉ (fit_dataloaderF 2 2 (fun _ _ => false) (fun e => decide (e = 0))).1) ∧
      (∀ b' < 2,
        Ev.optStep 0 b' ∈ (fit_dataloaderF 2 2 (fun _ _ => false) (fun e => decide (e = 0))).1)) := by
  constructor
  · exact (fit_dataloader_stop_signals 2 2 1 1
      (fun e b => decide (e = 1 ∧ b = 1)) (fun _ => false)).1
      (by decide) (by decide) (by decide) (by decide) (by decide) (by decide)
  · exact (fit_dataloader_stop_signals 2 2 0 0
      (fun _ _ => false) (fun e => decide (e = 0))).2
      (by decide) (by decide) (by decide) (by decide)

/-- Witness for C6: the check fails on `(1, (2,))` (a leaf next to a
container) and the reduce raises the topology error; it passes on
`(1, 2)` and no topology error is raised. -/
theorem reduce_topology_validation_witness :
    (all_equalF (to_levelsF (Obj.tup (.cons (Obj.leaf 1)
        (.cons (Obj.tup (.cons (Obj.leaf 2) .nil)) .nil)))) = .ok false ∧
      reduce_tupleF (fun a _ => a) none
          (Obj.tup (.cons (Obj.leaf 1) (.cons (Obj.tup (.cons (Obj.leaf 2) .nil)) .nil)))
        = .error (.valueError
            "Topology is not the same for all elements in data, and can not be reduced")) ∧
    (all_equalF (to_levelsF (Obj.tup (.cons (Obj.leaf (1 : Nat))
        (.cons (Obj.leaf 2) .nil)))) = .ok true ∧
      reduce_tupleF (fun a _ => a) none
          (Obj.tup (.cons (Obj.leaf 1) (.cons (Obj.leaf 2) .nil)))
        ≠ .error (.valueError
            "Topology is not the same for all elements in data, and can not be reduced")) :=
  ⟨⟨by decide, (reduce_topology_validation _).1 (by decide) _ none⟩,
   ⟨by decide, (reduce_topology_validation _).2 (by decide) _ none⟩⟩

/-! ## Claim C7 — `agg_list` / `split_agg`

The characterisation below shows `split_agg (agg_list data) = data` for
a non-empty sequence of same-topology `tuplefy`-produced containers with
no empty container node — and refutes the claim as stated on a sequence
of *empty* containers, where `zip(*new)` collapses everything. -/

lemma toList_ofList {α : Type} (l : List (Obj α)) :
    (ObjList.ofList l).toList = l := by
  induction l with
  | nil => rfl
  | cons x xs ih => simp [ObjList.ofList, ObjList.toList, ih]

lemma ofList_toList {α : Type} (xs : ObjList α) :
    ObjList.ofList xs.toList = xs := by
  induction xs using ObjList.spineInduction with
  | nil => rfl
  | cons x xs ih => simp [ObjList.ofList, ObjList.toList, ih]

lemma ofList_append {α : Type} (l1 l2 : List (Obj α)) :
    ObjList.ofList (l1 ++ l2) = (ObjList.ofList l1).append (ObjList.ofList l2) := by
  induction l1 with
  | nil => rfl
  | cons x xs ih => simp [ObjList.ofList, ObjList.append, ih]

lemma iterElemsD_tup {α : Type} (xs : ObjList α) :
    iterElemsD (Obj.tup xs) = xs.toList := rfl

mutual
lemma tuplefy_of_isTuplefied {α : Type} : ∀ (x : Obj α),
    isTuplefied x = true → tuplefyF x = x
  | .leaf _ => by intro _; rfl
  | .tup xs => by
    intro h
    simp only [isTuplefied] at h
    simp [tuplefyF, tuplefyL_of_isTuplefiedL xs h]
  | .pylist _ => by intro h; simp [isTuplefied] at h
lemma tuplefyL_of_isTuplefiedL {α : Type} : ∀ (xs : ObjList α),
    isTuplefiedL xs = true → tuplefyL xs = xs
  | .nil => by intro _; rfl
  | .cons x xs => by
    intro h
    simp only [isTuplefiedL, Bool.and_eq_true] at h
    simp [tuplefyL, tuplefy_of_isTuplefied x h.1, tuplefyL_of_isTuplefiedL xs h.2]
end

lemma isTuplefiedL_mem {α : Type} (xs : ObjList α) (h : isTuplefiedL xs = true) :
    ∀ x ∈ xs.toList, isTuplefied x = true := by
  induction xs using ObjList.spineInduction with
  | nil => simp [ObjList.toList]
  | cons x xs ih =>
    simp only [isTuplefiedL, Bool.and_eq_true] at h
    intro y hy
    rcases (by simpa [ObjList.toList] using hy : y = x ∨ y ∈ xs.toList) with rfl | hy
    · exact h.1
    · exact ih h.2 y hy

mutual
lemma levels_eq_of_sameShape {α : Type} : ∀ (a b : Obj α),
    sameShape a b = true → ∀ l, tuple_levelsF a l = tuple_levelsF b l
  | .tup xs, .tup ys => by
    intro h l
    simp only [sameShape] at h
    simp [tuple_levelsF, levelsL_eq_of_sameShapeL xs ys h]
  | .tup _, .leaf _ => by intro h; simp [sameShape] at h
  | .tup _, .pylist _ => by intro h; simp [sameShape] at h
  | .leaf _, .tup _ => by intro h; simp [sameShape] at h
  | .pylist _, .tup _ => by intro h; simp [sameShape] at h
  | .leaf _, .leaf _ => by intro _ _; rfl
  | .leaf _, .pylist _ => by intro _ _; rfl
  | .pylist _, .leaf _ => by intro _ _; rfl
  | .pylist _, .pylist _ => by intro _ _; rfl
lemma levelsL_eq_of_sameShapeL {α : Type} : ∀ (xs ys : ObjList α),
    sameShapeL xs ys = true → ∀ l, tupleLevelsL xs l = tupleLevelsL ys l
  | .nil, .nil => by intro _ _; rfl
  | .nil, .cons _ _ => by intro h; simp [sameShapeL] at h
  | .cons _ _, .nil => by intro h; simp [sameShapeL] at h
  | .cons x xs, .cons y ys => by
    intro h l
    simp only [sameShapeL, Bool.and_eq_true] at h
    simp [tupleLevelsL, levels_eq_of_sameShape x y h.1 (l + 1),
      levelsL_eq_of_sameShapeL xs ys h.2 l]
end

lemma toList_tupleLevelsL {α : Type} (t : ObjList α) (l : Int) :
    (tupleLevelsL t l).toList = t.toList.map (fun c => tuple_levelsF c (l + 1)) := by
  induction t using ObjList.spineInduction with
  | nil => rfl
  | cons x xs ih => simp [tupleLevelsL, ObjList.toList, ih]

/-- If every element shares the topology of the first one, the
`to_levels().all_equal()` validation passes. -/
lemma check_of_sameShape {α : Type} (h : Obj α) (t : ObjList α)
    (hsh : ∀ c ∈ (ObjList.cons h t).toList, sameShape h c = true) :
    all_equalF (to_levelsF (Obj.tup (ObjList.cons h t))) = .ok true := by
  have hlev : to_levelsF (Obj.tup (ObjList.cons h t))
      = Obj.tup (.cons (tuple_levelsF h 0) (tupleLevelsL t (-1))) := by
    simp [to_levelsF, tuple_levelsF, tupleLevelsL]
  rw [hlev]
  simp only [all_equalF, Except.ok.injEq]
  rw [List.all_eq_true]
  intro y hy
  rcases (by simpa [ObjList.toList] using hy :
      y = tuple_levelsF h 0 ∨ y ∈ (tupleLevelsL t (-1)).toList) with rfl | hy
  · simp
  · rw [toList_tupleLevelsL] at hy
    simp only [List.mem_map] at hy
    obtain ⟨c, hc, rfl⟩ := hy
    have := levels_eq_of_sameShape h c
      (hsh c (by simp [ObjList.toList, hc])) (-1 + 1)
    simp only [beq_iff_eq]
    rw [show (-1 : Int) + 1 = 0 from rfl] at this
    exact this.symm

mutual
lemma apply_init_eq_aggOf {α : Type} : ∀ (h : Obj α),
    apply_tupleF initListF h = aggOf h []
  | .leaf _ => by rfl
  | .pylist _ => by rfl
  | .tup xs => by
    simp only [apply_tupleF, aggOf, List.map_nil]
    rw [applyL_init_eq_aggOfL xs]
lemma applyL_init_eq_aggOfL {α : Type} : ∀ (xs : ObjList α),
    applyL initListF xs = aggOfL xs []
  | .nil => by rfl
  | .cons x xs => by
    simp only [applyL, aggOfL, List.map_nil]
    rw [apply_init_eq_aggOf x, applyL_init_eq_aggOfL xs]
end

mutual
lemma reduceRec_aggOf {α : Type} : ∀ (h c : Obj α) (vs : List (Obj α)),
    sameShape h c = true →
    reduce_recF append_funcF (aggOf h vs) c = aggOf h (vs ++ [c])
  | .tup xs, .tup cls, vs => by
    intro _hs
    simp only [sameShape] at _hs
    simp only [aggOf, reduce_recF, iterElemsD_tup, List.map_append, List.map_cons,
      List.map_nil]
    rw [reduceRecZip_aggOfL xs cls (vs.map iterElemsD) _hs]
  | .tup _, .leaf _, _ => by intro hs; simp [sameShape] at hs
  | .tup _, .pylist _, _ => by intro hs; simp [sameShape] at hs
  | .leaf _, c, vs => by
    intro _
    simp [aggOf, reduce_recF, append_funcF, ofList_append, ObjList.ofList]
  | .pylist _, c, vs => by
    intro _
    simp [aggOf, reduce_recF, append_funcF, ofList_append, ObjList.ofList]
lemma reduceRecZip_aggOfL {α : Type} : ∀ (xs cls : ObjList α) (rows : List (List (Obj α))),
    sameShapeL xs cls = true →
    reduceRecZip append_funcF (aggOfL xs rows) cls.toList
      = aggOfL xs (rows ++ [cls.toList])
  | .nil, _, rows => by
    intro _
    simp [aggOfL, reduceRecZip]
  | .cons _ _, .nil, rows => by intro hs; simp [sameShapeL] at hs
  | .cons x xs, .cons cl cls, rows => by
    intro hs
    simp only [sameShapeL, Bool.and_eq_true] at hs
    simp only [aggOfL, ObjList.toList, reduceRecZip, List.map_append, List.map_cons,
      List.map_nil]
    rw [reduceRec_aggOf x cl (rows.map hdD) hs.1,
      reduceRecZip_aggOfL xs cls (rows.map List.tail) hs.2]
    simp [hdD]
end

lemma foldRR_aggOf {α : Type} (h : Obj α) : ∀ (t : ObjList α) (vs : List (Obj α)),
    (∀ c ∈ t.toList, sameShape h c = true) →
    foldRR append_funcF (aggOf h vs) t = aggOf h (vs ++ t.toList) := by
  intro t
  induction t using ObjList.spineInduction with
  | nil => intro vs _; simp [foldRR, ObjList.toList]
  | cons c cs ih =>
    intro vs hsh
    have hc : sameShape h c = true := hsh c (by simp [ObjList.toList])
    simp only [foldRR, ObjList.toList]
    rw [reduceRec_aggOf h c vs hc,
      ih (vs ++ [c]) (fun x hx => hsh x (by simp [ObjList.toList, hx]))]
    simp

/-- Function `agg_list` on a non-empty sequence of same-topology elements produces
exactly the `aggOf` aggregation over all the elements (the first
included). -/
lemma agg_list_eq_aggOf {α : Type} [DecidableEq α] (hs : ObjList α) (t : ObjList α)
    (hsh : ∀ c ∈ (ObjList.cons (Obj.tup hs) t).toList, sameShape (Obj.tup hs) c = true) :
    agg_listF (Obj.tup (ObjList.cons (Obj.tup hs) t))
      = .ok (aggOf (Obj.tup hs) ((ObjList.cons (Obj.tup hs) t).toList)) := by
  unfold agg_listF reduce_tupleF
  simp only []
  rw [check_of_sameShape (Obj.tup hs) t hsh]
  simp only []
  rw [apply_init_eq_aggOf (Obj.tup hs),
    foldRR_aggOf (Obj.tup hs) (ObjList.cons (Obj.tup hs) t) [] hsh]
  simp

lemma shapeRow_of_sameShapeL {α : Type} : ∀ (xs cls : ObjList α),
    sameShapeL xs cls = true → shapeRow xs cls.toList = true := by
  intro xs
  induction xs using ObjList.spineInduction with
  | nil => intro cls h; cases cls with
    | nil => rfl
    | cons _ _ => simp [sameShapeL] at h
  | cons x xs ih => intro cls h; cases cls with
    | nil => simp [sameShapeL] at h
    | cons cl cls =>
      simp only [sameShapeL, Bool.and_eq_true] at h
      simp [ObjList.toList, shapeRow, h.1, ih cls h.2]

lemma shapeRow_length {α : Type} : ∀ (xs : ObjList α) (r : List (Obj α)),
    shapeRow xs r = true → r.length = xs.length := by
  intro xs
  induction xs using ObjList.spineInduction with
  | nil => intro r h; cases r with
    | nil => rfl
    | cons _ _ => simp [shapeRow] at h
  | cons x xs ih => intro r h; cases r with
    | nil => simp [shapeRow] at h
    | cons v r =>
      simp only [shapeRow, Bool.and_eq_true] at h
      simp [ObjList.length, ih r h.2]

lemma headsTails_colsOf {α : Type} : ∀ (xs : ObjList α) (r : List (Obj α))
    (rest : List (List (Obj α))),
    r.length = xs.length → (∀ r' ∈ rest, r'.length = xs.length) →
    headsTails (colsOf xs (r :: rest)) = some (r, colsOf xs rest) := by
  intro xs
  induction xs using ObjList.spineInduction with
  | nil =>
    intro r rest hr _
    cases r with
    | nil => rfl
    | cons _ _ => simp [ObjList.length] at hr
  | cons x xs ih =>
    intro r rest hr hrest
    cases r with
    | nil => simp [ObjList.length] at hr
    | cons a r =>
      simp only [colsOf, List.map_cons, hdD, List.headD, List.tail]
      rw [headsTails, ih r (rest.map List.tail)
        (by simpa [ObjList.length] using hr)
        (by
          intro r' hr'
          simp only [List.mem_map] at hr'
          obtain ⟨r'', hr'', rfl⟩ := hr'
          have := hrest r'' hr''
          simp only [ObjList.length] at this
          simp [List.length_tail, this])]

lemma zipMinGo_colsOf {α : Type} (xs : ObjList α) :
    ∀ (rows : List (List (Obj α))),
    (∀ r ∈ rows, r.length = xs.length + 1) →
    zipMinGo (rows.map hdD) (colsOf xs (rows.map List.tail)) = rows := by
  intro rows
  induction rows with
  | nil => intro _; rfl
  | cons r rest ih =>
    intro h
    have hr := h r (by simp)
    cases r with
    | nil => simp at hr
    | cons a r =>
      simp only [List.map_cons, hdD, List.headD, List.tail, zipMinGo]
      rw [headsTails_colsOf xs r (rest.map List.tail)
        (by simpa using hr)
        (by
          intro r' hr'
          simp only [List.mem_map] at hr'
          obtain ⟨r'', hr'', rfl⟩ := hr'
          have := h r'' (by simp [hr''])
          simp [List.length_tail, this])]
      simp only []
      rw [ih (fun r' hr' => h r' (by simp [hr']))]

lemma zipMin_colsOf {α : Type} (x : Obj α) (xs : ObjList α)
    (rows : List (List (Obj α)))
    (h : ∀ r ∈ rows, r.length = xs.length + 1) :
    zipMin (colsOf (ObjList.cons x xs) rows) = rows := by
  cases rows with
  | nil => rfl
  | cons r rest =>
    simp only [colsOf, zipMin]
    exact zipMinGo_colsOf xs (r :: rest) h

lemma iterElems_splitX {α : Type} (x : Obj α) (col : List (Obj α)) :
    iterElems (splitX x col) = some col := by
  cases x <;> simp [splitX, iterElems, toList_ofList]

lemma iterAll_splitCols {α : Type} : ∀ (xs : ObjList α)
    (rows : List (List (Obj α))),
    iterAllElems (splitColsObjs xs rows) = some (colsOf xs rows) := by
  intro xs
  induction xs using ObjList.spineInduction with
  | nil => intro rows; rfl
  | cons x xs ih =>
    intro rows
    simp [splitColsObjs, colsOf, iterAllElems, iterElems_splitX, ih]

lemma tuplefyL_rows {α : Type} : ∀ (vs : List (Obj α)),
    (∀ v ∈ vs, isContainer v = true ∧ isTuplefied v = true) →
    tuplefyL (ObjList.ofList ((vs.map iterElemsD).map
      (fun row => Obj.pylist (ObjList.ofList row)))) = ObjList.ofList vs := by
  intro vs
  induction vs with
  | nil => intro _; rfl
  | cons v vs ih =>
    intro h
    obtain ⟨hc, ht⟩ := h v (by simp)
    cases v with
    | leaf _ => simp [isContainer] at hc
    | pylist _ => simp [isContainer] at hc
    | tup cls =>
      simp only [List.map_cons, ObjList.ofList, tuplefyL, tuplefyF]
      rw [iterElemsD_tup, ofList_toList,
        tuplefyL_of_isTuplefiedL cls (by simpa [isTuplefied] using ht),
        ih (fun w hw => h w (by simp [hw]))]

mutual
lemma splitAgg_aggOf {α : Type} : ∀ (h : Obj α) (vs : List (Obj α)),
    noEmpty h = true →
    (∀ v ∈ vs, sameShape h v = true ∧ isTuplefied v = true) →
    split_aggF (aggOf h vs) = .ok (splitX h vs)
  | .leaf _, vs => by intro _ _; rfl
  | .pylist _, vs => by intro _ _; rfl
  | .tup .nil, vs => by intro hne _; simp [noEmpty] at hne
  | .tup (.cons x xs), vs => by
    intro hne hvs
    have hrows : ∀ r ∈ vs.map iterElemsD,
        shapeRow (ObjList.cons x xs) r = true ∧ ∀ w ∈ r, isTuplefied w = true := by
      intro r hr
      simp only [List.mem_map] at hr
      obtain ⟨v, hv, rfl⟩ := hr
      obtain ⟨hs, ht⟩ := hvs v hv
      cases v with
      | leaf _ => simp [sameShape] at hs
      | pylist _ => simp [sameShape] at hs
      | tup cls =>
        simp only [sameShape] at hs
        refine ⟨by simpa [iterElemsD_tup] using shapeRow_of_sameShapeL _ cls hs, ?_⟩
        simp only [iterElemsD_tup]
        exact isTuplefiedL_mem cls (by simpa [isTuplefied] using ht)
    have hlen : ∀ r ∈ vs.map iterElemsD, r.length = xs.length + 1 := by
      intro r hr
      have h1 := shapeRow_length _ _ (hrows r hr).1
      simpa [ObjList.length] using h1
    have hsplitL := splitAggL_aggOfL (ObjList.cons x xs) (vs.map iterElemsD)
      (by simpa [noEmpty] using hne) hrows
    simp only [aggOf, split_aggF]
    rw [hsplitL]
    simp only []
    rw [iterAll_splitCols]
    simp only []
    rw [zipMin_colsOf x xs _ hlen]
    simp only [splitX, tuplefyF, Except.ok.injEq, Obj.tup.injEq]
    refine tuplefyL_rows vs (fun v hv => ?_)
    obtain ⟨hs, ht⟩ := hvs v hv
    cases v with
    | leaf _ => simp [sameShape] at hs
    | pylist _ => simp [sameShape] at hs
    | tup cls => exact ⟨rfl, ht⟩
lemma splitAggL_aggOfL {α : Type} : ∀ (xs : ObjList α) (rows : List (List (Obj α))),
    noEmptyL xs = true →
    (∀ r ∈ rows, shapeRow xs r = true ∧ ∀ w ∈ r, isTuplefied w = true) →
    splitAggL (aggOfL xs rows) = .ok (splitColsObjs xs rows)
  | .nil, rows => by intro _ _; rfl
  | .cons x xs, rows => by
    intro hne hr
    simp only [noEmptyL, Bool.and_eq_true] at hne
    have hx : split_aggF (aggOf x (rows.map hdD)) = .ok (splitX x (rows.map hdD)) := by
      refine splitAgg_aggOf x (rows.map hdD) hne.1 (fun v hv => ?_)
      simp only [List.mem_map] at hv
      obtain ⟨r, hrm, rfl⟩ := hv
      obtain ⟨hsr, htr⟩ := hr r hrm
      cases r with
      | nil => simp [shapeRow] at hsr
      | cons w r =>
        simp only [shapeRow, Bool.and_eq_true] at hsr
        exact ⟨by simpa [hdD] using hsr.1, htr w (by simp)⟩
    have hxs : splitAggL (aggOfL xs (rows.map List.tail))
        = .ok (splitColsObjs xs (rows.map List.tail)) := by
      refine splitAggL_aggOfL xs (rows.map List.tail) hne.2 (fun r hrm => ?_)
      simp only [List.mem_map] at hrm
      obtain ⟨r', hr', rfl⟩ := hrm
      obtain ⟨hsr, htr⟩ := hr r' hr'
      cases r' with
      | nil => simp [shapeRow] at hsr
      | cons w r' =>
        simp only [shapeRow, Bool.and_eq_true] at hsr
        exact ⟨by simpa using hsr.2,
          fun w' hw' => htr w' (List.mem_cons_of_mem _ (by simpa using hw'))⟩
    simp only [aggOfL, splitAggL]
    rw [hx]
    simp only []
    rw [hxs]
    rfl
end

/-- C7 (as amended): for every *non-empty* top-level sequence of
containers that share the same topology, are in `tuplefy` normal form,
and contain *no empty container node*, `split_agg` undoes `agg_list`. -/
theorem agg_list_then_split_agg_roundtrip {α : Type} [DecidableEq α]
    (h : Obj α) (t : ObjList α)
    (hcont : ∀ c ∈ (ObjList.cons h t).toList, isContainer c = true)
    (hsh : ∀ c ∈ (ObjList.cons h t).toList, sameShape h c = true)
    (htf : ∀ c ∈ (ObjList.cons h t).toList, isTuplefied c = true)
    (hne : ∀ c ∈ (ObjList.cons h t).toList, noEmpty c = true) :
    (agg_listF (Obj.tup (ObjList.cons h t))).bind split_aggF
      = .ok (Obj.tup (ObjList.cons h t)) := by
  have hmem : h ∈ (ObjList.cons h t).toList := by simp [ObjList.toList]
  have hc := hcont h hmem
  cases h with
  | leaf _ => simp [isContainer] at hc
  | pylist _ => simp [isContainer] at hc
  | tup xs =>
    rw [agg_list_eq_aggOf xs t hsh]
    have hsp := splitAgg_aggOf (Obj.tup xs) ((ObjList.cons (Obj.tup xs) t).toList)
      (hne _ hmem) (fun v hv => ⟨hsh v hv, htf v hv⟩)
    simp only [Except.bind]
    rw [hsp]
    simp [splitX, ofList_toList]

/-- Counterexample to C7 as stated: the two empty containers `((), ())`
share the same topology, yet `agg_list` followed by `split_agg` returns
the empty container `()`, not the original sequence, because `zip(*new)`
over the empty aggregation produces nothing. -/
theorem agg_list_split_agg_counterexample :
    sameShape (Obj.tup (α := Nat) .nil) (Obj.tup .nil) = true ∧
    (agg_listF (Obj.tup (ObjList.cons (Obj.tup (α := Nat) .nil)
        (.cons (Obj.tup .nil) .nil)))).bind split_aggF
      = .ok (Obj.tup .nil) ∧
    Obj.tup (α := Nat) .nil
      ≠ Obj.tup (ObjList.cons (Obj.tup .nil) (.cons (Obj.tup .nil) .nil)) := by
  decide

/-- Witness for C7 (amended) at the two-element sequence
`((1, (2,)), (3, (4,)))`. -/
theorem agg_list_then_split_agg_roundtrip_witness :
    (agg_listF (Obj.tup (ObjList.cons
        (Obj.tup (.cons (Obj.leaf 1) (.cons (Obj.tup (.cons (Obj.leaf 2) .nil)) .nil)))
        (.cons
          (Obj.tup (.cons (Obj.leaf 3) (.cons (Obj.tup (.cons (Obj.leaf 4) .nil)) .nil)))
          .nil)))).bind split_aggF
      = .ok (Obj.tup (ObjList.cons
          (Obj.tup (.cons (Obj.leaf 1) (.cons (Obj.tup (.cons (Obj.leaf 2) .nil)) .nil)))
          (.cons
            (Obj.tup (.cons (Obj.leaf 3) (.cons (Obj.tup (.cons (Obj.leaf 4) .nil)) .nil)))
            .nil))) :=
  agg_list_then_split_agg_roundtrip
    (Obj.tup (.cons (Obj.leaf 1) (.cons (Obj.tup (.cons (Obj.leaf 2) .nil)) .nil)))
    (.cons
      (Obj.tup (.cons (Obj.leaf 3) (.cons (Obj.tup (.cons (Obj.leaf 4) .nil)) .nil)))
      .nil)
    (by decide) (by decide) (by decide) (by decide)
